import Mathlib

/-!
Verification of the `betterjeb` launch-into-orbit guidance program
(`src/bin/lto.rs`).

The numeric pipeline (vis-viva circularization planning, rocket-equation
burn time, the sleep passed to the burn executor) is embedded over `ℝ`,
modelling the program's floating-point values as reals.  The control-flow
of the ascent loop, the apoapsis fine-tuning loop and the burn executor is
embedded over `ℚ` (all the comparisons and arithmetic those loops perform
are field operations and order comparisons, so `ℚ` gives an executable,
decidable model).  Each per-tick telemetry reading resolves independently
as success or failure and is modelled as an `Option`.
-/

namespace Betterjeb

/-! ## Numeric pipeline (src/bin/lto.rs lines 223-255, 302, 328), over ℝ -/

/-- `v1 = (mu * ((2. / a2) - (1. / a1))).sqrt()` — speed at apoapsis on the
transfer orbit (line 226); `a2` is the apoapsis radius, `a1` the semi-major
axis. -/
noncomputable def v1 (mu a2 a1 : ℝ) : ℝ :=
  Real.sqrt (mu * (2 / a2 - 1 / a1))

/-- `v2 = (mu * ((2. / a2) - (1. / a2))).sqrt()` — the code's expression for
the circular-orbit speed at radius `a2` (line 227). -/
noncomputable def v2 (mu a2 : ℝ) : ℝ :=
  Real.sqrt (mu * (2 / a2 - 1 / a2))

/-- `delta_v = v2 - v1` (line 228; the `as f32` cast is the identity in the
real-valued model). -/
noncomputable def delta_v (mu a2 a1 : ℝ) : ℝ :=
  v2 mu a2 - v1 mu a2 a1

/-- Burn time by the rocket equation (lines 250-255):
`isp = isp0 * 9.82; m1 = m0 / exp(delta_v / isp); flow_rate = f / isp;
burn_time = (m0 - m1) / flow_rate`. -/
noncomputable def burn_time (f isp0 m0 dv : ℝ) : ℝ :=
  let isp := isp0 * 9.82
  let m1 := m0 / Real.exp (dv / isp)
  let flow_rate := f / isp
  (m0 - m1) / flow_rate

/-- The duration the burn executor passes to the real-time sleep
(line 328): `burn_time - 0.5`. -/
noncomputable def sleep_duration (bt : ℝ) : ℝ :=
  bt - 0.5

/-- C1: for positive `mu`, `r_ap = a2`, `a = a1`, the planned delta-v equals
`sqrt(mu / r_ap) - sqrt(mu * (2/r_ap - 1/a))`: the code's
`sqrt(mu*((2/a2) - (1/a2)))` is the simplified `sqrt(mu/a2)`, and the
computed delta-v matches `v2 - v1` to within `1e-6` relative error
(exactly, in the real-valued model). -/
theorem delta_v_eq_visviva (mu a2 a1 : ℝ)
    (hmu : 0 < mu) (ha2 : 0 < a2) (ha1 : 0 < a1) :
    delta_v mu a2 a1
      = Real.sqrt (mu / a2) - Real.sqrt (mu * (2 / a2 - 1 / a1)) ∧
    |delta_v mu a2 a1
        - (Real.sqrt (mu / a2) - Real.sqrt (mu * (2 / a2 - 1 / a1)))|
      ≤ 1e-6 * |Real.sqrt (mu / a2) - Real.sqrt (mu * (2 / a2 - 1 / a1))| := by
  have hv2 : v2 mu a2 = Real.sqrt (mu / a2) := by
    unfold v2
    have h : mu * (2 / a2 - 1 / a2) = mu / a2 := by
      rw [div_sub_div_same]
      norm_num [mul_one_div, div_eq_mul_inv]
    rw [h]
  have heq : delta_v mu a2 a1
      = Real.sqrt (mu / a2) - Real.sqrt (mu * (2 / a2 - 1 / a1)) := by
    unfold delta_v v1
    rw [hv2]
  refine ⟨heq, ?_⟩
  rw [heq, sub_self, abs_zero]
  positivity

/-- Witness for C1 at the concrete flight parameters of the spec:
`mu = 3.5316e12`, `r_ap = 750000`, `a = 700000`. -/
theorem delta_v_eq_visviva_witness :
    delta_v 3.5316e12 750000 700000
      = Real.sqrt (3.5316e12 / 750000)
        - Real.sqrt (3.5316e12 * (2 / 750000 - 1 / 700000)) ∧
    |delta_v 3.5316e12 750000 700000
        - (Real.sqrt (3.5316e12 / 750000)
            - Real.sqrt (3.5316e12 * (2 / 750000 - 1 / 700000)))|
      ≤ 1e-6 * |Real.sqrt (3.5316e12 / 750000)
          - Real.sqrt (3.5316e12 * (2 / 750000 - 1 / 700000))| :=
  delta_v_eq_visviva 3.5316e12 750000 700000
    (by norm_num) (by norm_num) (by norm_num)

/-- C2 (amended: the initial mass must also be positive): the burn time
follows the rocket equation with `isp_eff = isp * 9.82`, and it is strictly
positive whenever thrust, specific impulse, delta-v and the initial mass are
all positive. -/
theorem burn_time_pos (f isp0 m0 dv : ℝ)
    (hf : 0 < f) (hisp : 0 < isp0) (hdv : 0 < dv) (hm0 : 0 < m0) :
    burn_time f isp0 m0 dv
      = (m0 - m0 / Real.exp (dv / (isp0 * 9.82))) / (f / (isp0 * 9.82)) ∧
    0 < burn_time f isp0 m0 dv := by
  refine ⟨rfl, ?_⟩
  unfold burn_time
  have hisp_eff : (0:ℝ) < isp0 * 9.82 := by positivity
  have hx : 0 < dv / (isp0 * 9.82) := div_pos hdv hisp_eff
  have hexp : 1 < Real.exp (dv / (isp0 * 9.82)) := Real.one_lt_exp_iff.mpr hx
  have hm1 : m0 / Real.exp (dv / (isp0 * 9.82)) < m0 :=
    div_lt_self hm0 hexp
  have hflow : (0:ℝ) < f / (isp0 * 9.82) := div_pos hf hisp_eff
  exact div_pos (by linarith) hflow

/-- Witness for C2 (amended) at the spec's test point:
`m0 = 10000`, `F = 50000`, `isp = 300`, `delta_v = 300`. -/
theorem burn_time_pos_witness :
    burn_time 50000 300 10000 300
      = (10000 - 10000 / Real.exp (300 / (300 * 9.82)))
          / (50000 / (300 * 9.82)) ∧
    0 < burn_time 50000 300 10000 300 :=
  burn_time_pos 50000 300 10000 300
    (by norm_num) (by norm_num) (by norm_num) (by norm_num)

/-- C2 counterexample: with thrust, specific impulse and delta-v all
positive but `m0 = 0`, the burn time is `0`, not strictly positive, so the
claim as stated (positivity without any hypothesis on the initial mass)
fails. -/
theorem burn_time_not_pos_of_zero_mass :
    (0:ℝ) < 50000 ∧ (0:ℝ) < 300 ∧ (0:ℝ) < 300 ∧
    ¬ (0 < burn_time 50000 300 0 300) := by
  refine ⟨by norm_num, by norm_num, by norm_num, ?_⟩
  unfold burn_time
  simp

/-- C9: the burn executor does not guard against a non-positive delta-v.
At `delta_v = 0` (with the spec's positive thrust/isp/mass) the computed
burn time is `0` and the duration handed to the real-time sleep is
`-0.5 < 0` — the code passes a negative duration to
`Duration::from_secs_f32`, which panics, instead of treating the burn as a
no-op. -/
theorem sleep_duration_neg_at_zero_delta_v :
    burn_time 50000 300 10000 0 = 0 ∧
    sleep_duration (burn_time 50000 300 10000 0) < 0 := by
  have h : burn_time 50000 300 10000 0 = 0 := by
    unfold burn_time
    simp
  refine ⟨h, ?_⟩
  rw [h]
  unfold sleep_duration
  norm_num

/-! ## Control flow of the loops (src/bin/lto.rs lines 93-209, 296-328),
over ℚ -/

/-- `TURN_START_ALT` (line 7). -/
def TURN_START_ALT : ℚ := 250

/-- `TURN_END_ALT` (line 8). -/
def TURN_END_ALT : ℚ := 45000

/-- `TARGET_ALTITUDE` (line 9). -/
def TARGET_ALTITUDE : ℚ := 74000

/-- One resolved telemetry update (lines 341-365): each subscribed value
resolves independently; `none` models a per-value resolution failure. -/
structure Tick where
  ut : Option ℚ
  apoapsis : Option ℚ
  altitude : Option ℚ
  srb_fuel : Option ℚ
deriving DecidableEq

/-- The mutable state threaded through the ascent loop (lines 94-96). -/
structure AscentState where
  turn_angle : ℚ
  srb_seperated : Bool
  srb_fuel_seen_valid : Bool
deriving DecidableEq

/-- The ascent loop's initial state (lines 94-96):
`turn_angle = 0.0`, `srb_seperated = false`, `srb_fuel_seen_valid = false`. -/
def initialAscentState : AscentState :=
  { turn_angle := 0, srb_seperated := false, srb_fuel_seen_valid := false }

/-- A write-only command issued to the vehicle proxy. -/
inductive Command where
  | setThrottle (level : ℚ)
  | pitchHeading (pitch heading : ℚ)
  | activateNextStage
  | engageAutopilot
deriving DecidableEq

/-- The candidate turn angle the gravity turn computes for an altitude
(lines 116-120): only for `TURN_START_ALT < altitude < TURN_END_ALT` is
`frac * 90` computed, with
`frac = (altitude - TURN_START_ALT) / (TURN_END_ALT - TURN_START_ALT)`. -/
def gravityTurnAngle? (altitude : ℚ) : Option ℚ :=
  if TURN_START_ALT < altitude ∧ altitude < TURN_END_ALT then
    some ((altitude - TURN_START_ALT) / (TURN_END_ALT - TURN_START_ALT) * 90)
  else
    none

/-- The pitch-program part of one tick (lines 116-127): when a candidate
angle exists and differs from the stored one by more than `0.5`, store it
and command `target_pitch_and_heading(90 - turn_angle, 90)`. -/
def pitchUpdate (turn_angle altitude : ℚ) : ℚ × List Command :=
  match gravityTurnAngle? altitude with
  | some n =>
      if 0.5 < |n - turn_angle| then
        (n, [Command.pitchHeading (90 - n) 90])
      else
        (turn_angle, [])
  | none => (turn_angle, [])

/-- The SRB staging part of one tick (lines 130-145): runs only on a
resolved fuel reading; skipped entirely once separated; a first positive
reading sets `srb_fuel_seen_valid`; a reading `<= 0` with the flag set
issues `activate_next_stage` and sets `srb_seperated`. Returns
`(srb_seperated, srb_fuel_seen_valid, commands)`. -/
def stagingUpdate (sep seen : Bool) (fuel? : Option ℚ) :
    Bool × Bool × List Command :=
  match fuel? with
  | some fuel =>
      if sep then (sep, seen, [])
      else
        let seen' := if ¬ seen ∧ 0 < fuel then true else seen
        if fuel ≤ 0 ∧ seen' = true then (true, seen', [Command.activateNextStage])
        else (sep, seen', [])
  | none => (sep, seen, [])

/-- The result of one pass through the ascent loop body. -/
structure StepResult where
  state : AscentState
  cmds : List Command
  brk : Bool
deriving DecidableEq

/-- One pass through the ascent loop body (lines 114-152).  The whole body
runs only when both the apoapsis and the altitude readings resolve
(`if let (_, Ok(apoapsis), Ok(altitude), srb_fuel) = update`); within it,
the staging part additionally requires the fuel reading to resolve, and the
loop breaks when `apoapsis >= TARGET_ALTITUDE * 0.9`. -/
def ascentStep (s : AscentState) (t : Tick) : StepResult :=
  match t.apoapsis, t.altitude with
  | some apoapsis, some altitude =>
      let p := pitchUpdate s.turn_angle altitude
      let st := stagingUpdate s.srb_seperated s.srb_fuel_seen_valid t.srb_fuel
      { state := { turn_angle := p.1, srb_seperated := st.1,
                   srb_fuel_seen_valid := st.2.1 },
        cmds := p.2 ++ st.2.2,
        brk := decide (TARGET_ALTITUDE * 0.9 ≤ apoapsis) }
  | _, _ => { state := s, cmds := [], brk := false }

/-- The result of running the ascent loop on a list of ticks: the final
state, the commands of each processed tick in order, and the index of the
tick on which the loop broke out (`none` when the tick list was exhausted
without the exit condition firing). -/
structure RunResult where
  state : AscentState
  tickCmds : List (List Command)
  exitIdx : Option ℕ
deriving DecidableEq

/-- The ascent loop (lines 97-153) over a finite list of telemetry ticks:
process ticks in order with `ascentStep`, stopping after the first tick
whose pass sets the break flag. -/
def ascentLoop (s : AscentState) : List Tick → RunResult
  | [] => { state := s, tickCmds := [], exitIdx := none }
  | t :: ts =>
      let r := ascentStep s t
      if r.brk then
        { state := r.state, tickCmds := [r.cmds], exitIdx := some 0 }
      else
        let rest := ascentLoop r.state ts
        { state := rest.state, tickCmds := r.cmds :: rest.tickCmds,
          exitIdx := rest.exitIdx.map (· + 1) }

/-- The commands issued at launch (lines 84-91): next stage, engage
autopilot, `target_pitch_and_heading(90., 90.)`. -/
def launchCommands : List Command :=
  [Command.activateNextStage, Command.engageAutopilot,
   Command.pitchHeading 90 90]

/-- A tick's apoapsis reading resolved at or above the target altitude —
the fine-tuning loop's exit condition (line 176). -/
def apoAtTarget (t : Tick) : Prop :=
  ∃ ap, t.apoapsis = some ap ∧ TARGET_ALTITUDE ≤ ap

/-- The fine-tuning wait loop (lines 159-180): keep reading ticks, ignoring
every reading but the apoapsis, and break on the first tick whose resolved
apoapsis is `>= TARGET_ALTITUDE`; a failed apoapsis reading just loops
again.  Returns the index of the breaking tick. -/
def fineTuneWait : List Tick → Option ℕ
  | [] => none
  | t :: ts =>
      match t.apoapsis with
      | some ap =>
          if TARGET_ALTITUDE ≤ ap then some 0
          else (fineTuneWait ts).map (· + 1)
      | none => (fineTuneWait ts).map (· + 1)

/-- The apoapsis fine-tuning phase (lines 156-184): throttle to 25% on
entry, wait for the target apoapsis, then cut the throttle to 0 (the cut
happens only if the wait loop exits). -/
def fineTunePhase (ts : List Tick) : List Command :=
  Command.setThrottle 0.25 ::
    match fineTuneWait ts with
    | some _ => [Command.setThrottle 0]
    | none => []

/-- A tick's altitude resolved at or above the atmosphere-exit threshold —
the coast loop's exit condition (line 205). -/
def coastDone (t : Tick) : Prop :=
  ∃ alt, t.altitude = some alt ∧ 70500 ≤ alt

/-- The coast loop (lines 188-209): break on the first tick whose resolved
altitude is `>= 70500.`, ignoring all other readings and failures. -/
def coastWait : List Tick → Option ℕ
  | [] => none
  | t :: ts =>
      match t.altitude with
      | some alt =>
          if (70500:ℚ) ≤ alt then some 0
          else (coastWait ts).map (· + 1)
      | none => (coastWait ts).map (· + 1)

/-! ## Burn executor (lines 296-328), over ℚ -/

/-- `lead_time` (line 303). -/
def lead_time : ℚ := 5

/-- `burn_ut = ut + time_to_apoapsis - burn_time / 2` (line 302). -/
def burn_ut (ut tta bt : ℚ) : ℚ :=
  ut + tta - bt / 2

/-- An observable action of the burn executor. -/
inductive BurnEvent where
  | warpTo (t rate precision : ℚ)
  | setThrottle (x : ℚ)
  | sleep (d : ℚ)
deriving DecidableEq

/-- The wait loop before the burn (lines 311-322): poll the
time-to-apoapsis stream and break on the first resolved reading with
`tta - burn_time / 2 <= 0`; failed readings loop again.  Returns the index
of the breaking reading. -/
def burnWait (bt : ℚ) : List (Option ℚ) → Option ℕ
  | [] => none
  | r :: rs =>
      match r with
      | some tta =>
          if tta - bt / 2 ≤ 0 then some 0
          else (burnWait bt rs).map (· + 1)
      | none => (burnWait bt rs).map (· + 1)

/-- The burn executor's action sequence after orientation (lines 302-333):
warp to `burn_ut - lead_time` at rate 50 and precision 4, then (after the
wait loop) throttle to 1.0 and sleep `burn_time - 0.5` seconds; nothing is
issued afterwards — no throttle-down and no orbit verification. -/
def burnExecutor (ut tta bt : ℚ) : List BurnEvent :=
  [BurnEvent.warpTo (burn_ut ut tta bt - lead_time) 50 4,
   BurnEvent.setThrottle 1,
   BurnEvent.sleep (bt - 0.5)]

/-! ## Spec-side definitions, for refinement comparisons -/

/-- Modelled from the spec's testable property: `turn_angle(a) =
90 * (a - TURN_START_ALT) / (TURN_END_ALT - TURN_START_ALT)`, clamped to
`[0, 90]`. -/
def specTurnAngle (a : ℚ) : ℚ :=
  max 0 (min 90 (90 * (a - TURN_START_ALT) / (TURN_END_ALT - TURN_START_ALT)))

/-- A tick on which the ascent loop's body runs and the exit condition
holds: both the apoapsis and altitude readings resolve and the apoapsis is
at least `TARGET_ALTITUDE * 0.9`. -/
def exitTick (t : Tick) : Prop :=
  ∃ ap alt, t.apoapsis = some ap ∧ t.altitude = some alt ∧
    TARGET_ALTITUDE * 0.9 ≤ ap

/-- A tick with a resolved fuel reading `<= 0`. -/
def fuelNonPos (t : Tick) : Prop :=
  ∃ fuel, t.srb_fuel = some fuel ∧ fuel ≤ 0

/-- A tick with a resolved fuel reading `> 0`. -/
def fuelPos (t : Tick) : Prop :=
  ∃ fuel, t.srb_fuel = some fuel ∧ 0 < fuel

/-! ## C3: the gravity turn -/

/-- C3 (amended: the gravity turn computes a new angle only for altitudes
strictly between `TURN_START_ALT` and `TURN_END_ALT`): on such altitudes the
computed angle equals the spec's clamped formula (the clamp is the
identity there); a pitch/heading command is emitted only when the new angle
differs from the stored one by more than `0.5` degrees; and a second tick
at an unchanged altitude leaves the stored angle unchanged and emits no
command. -/
theorem gravity_turn_spec :
    (∀ a : ℚ, TURN_START_ALT < a → a < TURN_END_ALT →
      gravityTurnAngle? a = some (specTurnAngle a)) ∧
    (∀ ta a : ℚ, (pitchUpdate ta a).2 ≠ [] →
      ∃ n, gravityTurnAngle? a = some n ∧ 0.5 < |n - ta|) ∧
    (∀ ta a : ℚ,
      pitchUpdate (pitchUpdate ta a).1 a = ((pitchUpdate ta a).1, [])) := by
  refine ⟨?_, ?_, ?_⟩
  · intro a h1 h2
    unfold gravityTurnAngle? specTurnAngle
    simp only [TURN_START_ALT, TURN_END_ALT] at h1 h2 ⊢
    rw [if_pos ⟨h1, h2⟩]
    congr 1
    have hnum : (0:ℚ) ≤ a - 250 := by linarith
    have hfrac0 : (0:ℚ) ≤ (a - 250) / (45000 - 250) := by positivity
    have hfrac1 : (a - 250) / (45000 - 250) ≤ 1 := by
      rw [div_le_one (by norm_num)]
      linarith
    have hv0 : (0:ℚ) ≤ (a - 250) / (45000 - 250) * 90 := by positivity
    have hv90 : (a - 250) / (45000 - 250) * 90 ≤ 90 := by nlinarith
    have hkey : 90 * (a - 250) / (45000 - 250) = (a - 250) / (45000 - 250) * 90 := by
      ring
    rw [hkey, min_eq_right hv90, max_eq_right hv0]
  · intro ta a hne
    cases h : gravityTurnAngle? a with
    | none => simp [pitchUpdate, h] at hne
    | some n =>
        by_cases hd : (0.5:ℚ) < |n - ta|
        · exact ⟨n, rfl, hd⟩
        · simp [pitchUpdate, h, hd] at hne
  · intro ta a
    cases h : gravityTurnAngle? a with
    | none => simp [pitchUpdate, h]
    | some n =>
        by_cases hd : (0.5:ℚ) < |n - ta|
        · simp [pitchUpdate, h, hd, sub_self, abs_zero]
          norm_num
        · simp [pitchUpdate, h, hd]

/-- C3 counterexample: the claim asserts the formula for all altitudes with
`TURN_START_ALT <= a <= TURN_END_ALT`, but at `a = 45000` (the inclusive
upper endpoint) the code's strict comparison computes no new turn angle at
all, rather than the claimed clamped value `90`. -/
theorem gravity_turn_boundary_cex :
    TURN_START_ALT ≤ (45000:ℚ) ∧ (45000:ℚ) ≤ TURN_END_ALT ∧
    gravityTurnAngle? 45000 ≠ some (specTurnAngle 45000) := by
  refine ⟨by norm_num [TURN_START_ALT], by norm_num [TURN_END_ALT], ?_⟩
  have h : gravityTurnAngle? 45000 = none := by
    norm_num [gravityTurnAngle?, TURN_START_ALT, TURN_END_ALT]
  simp [h]

/-- Witness for C3 (amended) at altitude `22625` (the turn's midpoint,
angle `45`) from the initial stored angle `0`. -/
theorem gravity_turn_spec_witness :
    gravityTurnAngle? 22625 = some (specTurnAngle 22625) ∧
    (∃ n, gravityTurnAngle? 22625 = some n ∧ (0.5:ℚ) < |n - 0|) ∧
    pitchUpdate (pitchUpdate 0 22625).1 22625 = ((pitchUpdate 0 22625).1, []) :=
  ⟨gravity_turn_spec.1 22625 (by norm_num [TURN_START_ALT])
      (by norm_num [TURN_END_ALT]),
   gravity_turn_spec.2.1 0 22625 (by
     have h : gravityTurnAngle? 22625 = some 45 := by
       norm_num [gravityTurnAngle?, TURN_START_ALT, TURN_END_ALT]
     norm_num [pitchUpdate, h]),
   gravity_turn_spec.2.2 0 22625⟩

/-! ## C6: the apoapsis fine-tuning phase -/

/-- C6: the fine-tuning phase sets the throttle to `0.25` on entry; its
wait loop exits exactly on the first tick whose resolved apoapsis is
`>= TARGET_ALTITUDE` (never on an earlier tick, and never at all if no tick
qualifies); a tick whose apoapsis fails to resolve is skipped and never
treated as satisfying the exit condition; and on exit the throttle is cut
to `0`. -/
theorem fine_tune_spec :
    (∀ ts : List Tick,
      (fineTunePhase ts).head? = some (Command.setThrottle 0.25)) ∧
    (∀ ts : List Tick, ∀ i : ℕ, fineTuneWait ts = some i →
      (∃ ti, ts[i]? = some ti ∧ apoAtTarget ti) ∧
      ∀ j, j < i → ∀ tj, ts[j]? = some tj → ¬ apoAtTarget tj) ∧
    (∀ ts : List Tick, fineTuneWait ts = none → ∀ t ∈ ts, ¬ apoAtTarget t) ∧
    (∀ (t : Tick) (ts : List Tick), t.apoapsis = none →
      fineTuneWait (t :: ts) = (fineTuneWait ts).map (· + 1)) ∧
    (∀ ts : List Tick, ∀ i : ℕ, fineTuneWait ts = some i →
      fineTunePhase ts = [Command.setThrottle 0.25, Command.setThrottle 0]) := by
  have hskip : ∀ (t : Tick) (ts : List Tick), t.apoapsis = none →
      fineTuneWait (t :: ts) = (fineTuneWait ts).map (· + 1) := by
    intro t ts h
    simp [fineTuneWait, h]
  have hfirst : ∀ ts : List Tick, ∀ i : ℕ, fineTuneWait ts = some i →
      (∃ ti, ts[i]? = some ti ∧ apoAtTarget ti) ∧
      ∀ j, j < i → ∀ tj, ts[j]? = some tj → ¬ apoAtTarget tj := by
    intro ts
    induction ts with
    | nil => intro i h; simp [fineTuneWait] at h
    | cons t ts ih =>
        intro i h
        cases hap : t.apoapsis with
        | some ap =>
            by_cases hge : TARGET_ALTITUDE ≤ ap
            · have h0 : i = 0 := by
                simp [fineTuneWait, hap, hge] at h
                omega
              subst h0
              exact ⟨⟨t, by simp, ⟨ap, hap, hge⟩⟩,
                fun j hj => absurd hj (Nat.not_lt_zero j)⟩
            · rw [show fineTuneWait (t :: ts) = (fineTuneWait ts).map (· + 1)
                  from by simp [fineTuneWait, hap, hge]] at h
              obtain ⟨k, hk, hik⟩ := Option.map_eq_some'.mp h
              obtain ⟨⟨ti, hti, hq⟩, hmin⟩ := ih k hk
              subst hik
              refine ⟨⟨ti, by simpa using hti, hq⟩, ?_⟩
              intro j hj tj htj
              cases j with
              | zero =>
                  rintro ⟨ap', hap', hge'⟩
                  simp at htj
                  rw [← htj, hap] at hap'
                  injection hap' with he
                  exact hge (by rw [he]; exact hge')
              | succ j' =>
                  exact hmin j' (by omega) tj (by simpa using htj)
        | none =>
            rw [hskip t ts hap] at h
            obtain ⟨k, hk, hik⟩ := Option.map_eq_some'.mp h
            obtain ⟨⟨ti, hti, hq⟩, hmin⟩ := ih k hk
            subst hik
            refine ⟨⟨ti, by simpa using hti, hq⟩, ?_⟩
            intro j hj tj htj
            cases j with
            | zero =>
                rintro ⟨ap', hap', hge'⟩
                simp at htj
                rw [← htj, hap] at hap'
                exact Option.noConfusion hap'
            | succ j' =>
                exact hmin j' (by omega) tj (by simpa using htj)
  refine ⟨fun ts => rfl, hfirst, ?_, hskip, ?_⟩
  · intro ts
    induction ts with
    | nil => intro _ t ht; exact absurd ht (List.not_mem_nil t)
    | cons t ts ih =>
        intro h t' ht'
        cases hap : t.apoapsis with
        | some ap =>
            by_cases hge : TARGET_ALTITUDE ≤ ap
            · simp [fineTuneWait, hap, hge] at h
            · rw [show fineTuneWait (t :: ts) = (fineTuneWait ts).map (· + 1)
                  from by simp [fineTuneWait, hap, hge]] at h
              rcases List.mem_cons.mp ht' with rfl | hmem
              · rintro ⟨ap', hap', hge'⟩
                rw [hap] at hap'
                injection hap' with he
                exact hge (he ▸ hge')
              · exact ih (by simpa using h) t' hmem
        | none =>
            rw [hskip t ts hap] at h
            rcases List.mem_cons.mp ht' with rfl | hmem
            · rintro ⟨ap', hap', hge'⟩
              rw [hap] at hap'
              exact Option.noConfusion hap'
            · exact ih (by simpa using h) t' hmem
  · intro ts i h
    simp [fineTunePhase, h]

/-- Witness for C6: a first tick whose apoapsis fails to resolve is
skipped, and the phase exits on the second tick, whose resolved apoapsis
`74000` meets the target. -/
theorem fine_tune_spec_witness :
    (fineTunePhase [⟨none, none, none, none⟩,
        ⟨none, some 74000, none, none⟩]).head?
      = some (Command.setThrottle 0.25) ∧
    ((∃ ti, ([(⟨none, none, none, none⟩ : Tick),
        ⟨none, some 74000, none, none⟩])[(1:ℕ)]? = some ti ∧ apoAtTarget ti) ∧
      ∀ j, j < 1 → ∀ tj, ([(⟨none, none, none, none⟩ : Tick),
        ⟨none, some 74000, none, none⟩])[j]? = some tj → ¬ apoAtTarget tj) ∧
    (∀ t ∈ ([] : List Tick), ¬ apoAtTarget t) ∧
    fineTuneWait [(⟨none, none, none, none⟩ : Tick)]
      = (fineTuneWait []).map (· + 1) ∧
    fineTunePhase [⟨none, none, none, none⟩, ⟨none, some 74000, none, none⟩]
      = [Command.setThrottle 0.25, Command.setThrottle 0] := by
  have hw : fineTuneWait [(⟨none, none, none, none⟩ : Tick),
      ⟨none, some 74000, none, none⟩] = some 1 := by
    norm_num [fineTuneWait, TARGET_ALTITUDE]
  exact ⟨fine_tune_spec.1 _,
    fine_tune_spec.2.1 _ 1 hw,
    fine_tune_spec.2.2.1 [] rfl,
    fine_tune_spec.2.2.2.1 _ [] rfl,
    fine_tune_spec.2.2.2.2 _ 1 hw⟩

/-! ## C8: the burn executor -/

/-- C8: the burn executor warps to
`burn_start - lead_time = (ut + tta) - burn_time/2 - 5`; its wait loop
proceeds exactly on the first resolved time-to-apoapsis reading with
`tta - burn_time/2 <= 0` (failed readings are skipped); it then throttles
to `1.0` and sleeps `burn_time - 0.5` seconds, and after the throttle-up
the only remaining action is that sleep — no throttle-down command and no
verification follows before the program ends. -/
theorem burn_executor_spec :
    (∀ ut tta bt : ℚ,
      burnExecutor ut tta bt =
        [BurnEvent.warpTo (ut + tta - bt / 2 - 5) 50 4,
         BurnEvent.setThrottle 1, BurnEvent.sleep (bt - 0.5)]) ∧
    (∀ (bt : ℚ) (rs : List (Option ℚ)) (i : ℕ), burnWait bt rs = some i →
      (∃ tta, rs[i]? = some (some tta) ∧ tta - bt / 2 ≤ 0) ∧
      ∀ j, j < i → ∀ tta, rs[j]? = some (some tta) → ¬ (tta - bt / 2 ≤ 0)) ∧
    (∀ (bt : ℚ) (rs : List (Option ℚ)), burnWait bt rs = none →
      ∀ r ∈ rs, ∀ tta, r = some tta → ¬ (tta - bt / 2 ≤ 0)) ∧
    (∀ ut tta bt : ℚ,
      (burnExecutor ut tta bt).drop 2 = [BurnEvent.sleep (bt - 0.5)] ∧
      ∀ x, BurnEvent.setThrottle x ∉ (burnExecutor ut tta bt).drop 2) := by
  refine ⟨fun ut tta bt => rfl, ?_, ?_, ?_⟩
  · intro bt rs
    induction rs with
    | nil => intro i h; simp [burnWait] at h
    | cons r rs ih =>
        intro i h
        cases hr : r with
        | some tta =>
            by_cases hle : tta - bt / 2 ≤ 0
            · have h0 : i = 0 := by
                simp [burnWait, hr, hle] at h
                omega
              subst h0
              exact ⟨⟨tta, by simp [hr], hle⟩,
                fun j hj => absurd hj (Nat.not_lt_zero j)⟩
            · rw [show burnWait bt (r :: rs) = (burnWait bt rs).map (· + 1)
                  from by simp [burnWait, hr, hle]] at h
              obtain ⟨k, hk, hik⟩ := Option.map_eq_some'.mp h
              obtain ⟨⟨t', ht', hq⟩, hmin⟩ := ih k hk
              subst hik
              refine ⟨⟨t', by simpa using ht', hq⟩, ?_⟩
              intro j hj tta' htj
              cases j with
              | zero =>
                  simp [hr] at htj
                  exact htj ▸ hle
              | succ j' =>
                  exact hmin j' (by omega) tta' (by simpa using htj)
        | none =>
            rw [show burnWait bt (r :: rs) = (burnWait bt rs).map (· + 1)
                from by simp [burnWait, hr]] at h
            obtain ⟨k, hk, hik⟩ := Option.map_eq_some'.mp h
            obtain ⟨⟨t', ht', hq⟩, hmin⟩ := ih k hk
            subst hik
            refine ⟨⟨t', by simpa using ht', hq⟩, ?_⟩
            intro j hj tta' htj
            cases j with
            | zero => simp [hr] at htj
            | succ j' =>
                exact hmin j' (by omega) tta' (by simpa using htj)
  · intro bt rs
    induction rs with
    | nil => intro _ r hr; exact absurd hr (List.not_mem_nil r)
    | cons r rs ih =>
        intro h r' hr' tta' hr'some
        cases hr : r with
        | some tta =>
            by_cases hle : tta - bt / 2 ≤ 0
            · simp [burnWait, hr, hle] at h
            · rcases List.mem_cons.mp hr' with rfl | hmem
              · rw [hr] at hr'some
                injection hr'some with he
                exact he ▸ hle
              · rw [show burnWait bt (r :: rs) = (burnWait bt rs).map (· + 1)
                    from by simp [burnWait, hr, hle]] at h
                exact ih (by simpa using h) r' hmem tta' hr'some
        | none =>
            rcases List.mem_cons.mp hr' with rfl | hmem
            · rw [hr] at hr'some
              exact Option.noConfusion hr'some
            · rw [show burnWait bt (r :: rs) = (burnWait bt rs).map (· + 1)
                  from by simp [burnWait, hr]] at h
              exact ih (by simpa using h) r' hmem tta' hr'some
  · intro ut tta bt
    exact ⟨rfl, fun x => by simp [burnExecutor]⟩

/-- Witness for C8: with `burn_time = 4`, readings
`[failed, 10, 1]` make the wait loop proceed exactly at index 2
(`1 - 2 <= 0`); the executor's trailing actions are the single sleep. -/
theorem burn_executor_spec_witness :
    burnExecutor 100 30 4 =
      [BurnEvent.warpTo (100 + 30 - 4 / 2 - 5) 50 4,
       BurnEvent.setThrottle 1, BurnEvent.sleep (4 - 0.5)] ∧
    ((∃ tta, ([none, some 10, some 1] : List (Option ℚ))[(2:ℕ)]?
        = some (some tta) ∧ tta - 4 / 2 ≤ 0) ∧
      ∀ j, j < 2 → ∀ tta, ([none, some 10, some 1] :
        List (Option ℚ))[j]? = some (some tta) → ¬ (tta - 4 / 2 ≤ 0)) ∧
    (∀ r ∈ ([none] : List (Option ℚ)), ∀ tta, r = some tta →
      ¬ (tta - 4 / 2 ≤ 0)) ∧
    ((burnExecutor 100 30 4).drop 2 = [BurnEvent.sleep (4 - 0.5)] ∧
      ∀ x, BurnEvent.setThrottle x ∉ (burnExecutor 100 30 4).drop 2) := by
  have hw : burnWait 4 ([none, some 10, some 1] : List (Option ℚ))
      = some 2 := by
    norm_num [burnWait]
  exact ⟨burn_executor_spec.1 100 30 4,
    burn_executor_spec.2.1 4 _ 2 hw,
    burn_executor_spec.2.2.1 4 [none] rfl,
    burn_executor_spec.2.2.2 100 30 4⟩

/-! ## C7: the ascent-loop exit condition -/

/-- A pass of the ascent loop body sets the break flag exactly on ticks
where both readings resolve and the apoapsis is at least
`TARGET_ALTITUDE * 0.9`. -/
theorem ascentStep_brk_iff (s : AscentState) (t : Tick) :
    (ascentStep s t).brk = true ↔ exitTick t := by
  cases hap : t.apoapsis with
  | none => simp [ascentStep, hap, exitTick]
  | some ap =>
      cases halt : t.altitude with
      | none => simp [ascentStep, hap, halt, exitTick]
      | some alt => simp [ascentStep, hap, halt, exitTick]

/-- C7 (amended: the exit check runs only on ticks where the altitude
reading also resolves): the ascent loop exits on the first tick where both
the apoapsis and altitude readings resolve and the apoapsis is
`>= TARGET_ALTITUDE * 0.9 = 66600`, and on no earlier such tick; if no
processed tick qualifies it never exits. -/
theorem ascent_exit_spec :
    (∀ (ts : List Tick) (s : AscentState) (i : ℕ),
      (ascentLoop s ts).exitIdx = some i →
      (∃ ti, ts[i]? = some ti ∧ exitTick ti) ∧
      ∀ j, j < i → ∀ tj, ts[j]? = some tj → ¬ exitTick tj) ∧
    (∀ (ts : List Tick) (s : AscentState),
      (ascentLoop s ts).exitIdx = none → ∀ t ∈ ts, ¬ exitTick t) ∧
    TARGET_ALTITUDE * 0.9 = 66600 := by
  refine ⟨?_, ?_, by norm_num [TARGET_ALTITUDE]⟩
  · intro ts
    induction ts with
    | nil => intro s i h; simp [ascentLoop] at h
    | cons t ts ih =>
        intro s i h
        by_cases hb : (ascentStep s t).brk = true
        · have h0 : i = 0 := by
            simp [ascentLoop, hb] at h
            omega
          subst h0
          exact ⟨⟨t, by simp, (ascentStep_brk_iff s t).mp hb⟩,
            fun j hj => absurd hj (Nat.not_lt_zero j)⟩
        · have hmap : (ascentLoop s (t :: ts)).exitIdx
              = ((ascentLoop (ascentStep s t).state ts).exitIdx).map (· + 1) := by
            simp [ascentLoop, hb]
          rw [hmap] at h
          obtain ⟨k, hk, hik⟩ := Option.map_eq_some'.mp h
          obtain ⟨⟨ti, hti, hq⟩, hmin⟩ := ih (ascentStep s t).state k hk
          subst hik
          refine ⟨⟨ti, by simpa using hti, hq⟩, ?_⟩
          intro j hj tj htj
          cases j with
          | zero =>
              intro hcon
              simp only [List.getElem?_cons_zero, Option.some.injEq] at htj
              subst htj
              exact hb ((ascentStep_brk_iff s t).mpr hcon)
          | succ j' =>
              exact hmin j' (by omega) tj (by simpa using htj)
  · intro ts
    induction ts with
    | nil => intro s _ t' ht'; exact absurd ht' (List.not_mem_nil t')
    | cons t ts ih =>
        intro s h t' ht'
        by_cases hb : (ascentStep s t).brk = true
        · simp [ascentLoop, hb] at h
        · have hmap : (ascentLoop s (t :: ts)).exitIdx
              = ((ascentLoop (ascentStep s t).state ts).exitIdx).map (· + 1) := by
            simp [ascentLoop, hb]
          rw [hmap] at h
          rcases List.mem_cons.mp ht' with rfl | hmem
          · exact fun hcon => hb ((ascentStep_brk_iff s t').mpr hcon)
          · exact ih (ascentStep s t).state (by simpa using h) t' hmem

/-- C7 counterexample: the first tick's resolved apoapsis `70000` already
satisfies `>= TARGET_ALTITUDE * 0.9`, but its altitude reading failed, so
the loop does not exit there: it exits on the second tick (index `1`), not
the first (index `0`) as claimed. -/
theorem ascent_exit_cex :
    (ascentLoop initialAscentState
        [⟨none, some 70000, none, none⟩,
         ⟨none, some 70000, some 50000, none⟩]).exitIdx = some 1 ∧
    (⟨none, some 70000, none, none⟩ : Tick).apoapsis = some 70000 ∧
    TARGET_ALTITUDE * 0.9 ≤ (70000:ℚ) := by
  refine ⟨?_, rfl, by norm_num [TARGET_ALTITUDE]⟩
  norm_num [ascentLoop, ascentStep, pitchUpdate, gravityTurnAngle?,
    stagingUpdate, TARGET_ALTITUDE, TURN_START_ALT, TURN_END_ALT,
    initialAscentState]

/-- Witness for C7 (amended): a run that exits on its first tick (both
readings resolved, apoapsis `70000`), and a run over one fully-failed tick
that does not exit. -/
theorem ascent_exit_spec_witness :
    ((∃ ti, ([(⟨none, some 70000, some 50000, none⟩ : Tick)])[(0:ℕ)]?
        = some ti ∧ exitTick ti) ∧
      ∀ j, j < 0 → ∀ tj, ([(⟨none, some 70000, some 50000, none⟩ :
        Tick)])[j]? = some tj → ¬ exitTick tj) ∧
    (∀ t ∈ [(⟨none, none, none, none⟩ : Tick)], ¬ exitTick t) := by
  have h1 : (ascentLoop initialAscentState
      [(⟨none, some 70000, some 50000, none⟩ : Tick)]).exitIdx = some 0 := by
    norm_num [ascentLoop, ascentStep, pitchUpdate, gravityTurnAngle?,
      stagingUpdate, TARGET_ALTITUDE, TURN_START_ALT, TURN_END_ALT,
      initialAscentState]
  have h2 : (ascentLoop initialAscentState
      [(⟨none, none, none, none⟩ : Tick)]).exitIdx = none := by
    norm_num [ascentLoop, ascentStep, initialAscentState]
  exact ⟨ascent_exit_spec.1 _ _ 0 h1, ascent_exit_spec.2.1 _ _ h2⟩

/-! ## C5: gating of the per-tick decisions on telemetry success -/

/-- C5 (amended: the whole tick body is gated on the apoapsis AND altitude
readings both resolving): if either of those two readings fails, all three
decisions are skipped; when both resolve, a failed fuel reading skips only
the staging check while the pitch update and exit check still execute; and
the `ut` reading is never consulted by any decision. -/
theorem tick_gating_spec :
    (∀ (s : AscentState) (t : Tick),
      t.apoapsis = none ∨ t.altitude = none →
      ascentStep s t = ⟨s, [], false⟩) ∧
    (∀ (s : AscentState) (t : Tick) (ap alt : ℚ),
      t.apoapsis = some ap → t.altitude = some alt → t.srb_fuel = none →
      (ascentStep s t).cmds = (pitchUpdate s.turn_angle alt).2 ∧
      (ascentStep s t).state.turn_angle = (pitchUpdate s.turn_angle alt).1 ∧
      (ascentStep s t).state.srb_seperated = s.srb_seperated ∧
      (ascentStep s t).state.srb_fuel_seen_valid = s.srb_fuel_seen_valid ∧
      ((ascentStep s t).brk = true ↔ TARGET_ALTITUDE * 0.9 ≤ ap)) ∧
    (∀ (s : AscentState) (t : Tick) (u : Option ℚ),
      ascentStep s { t with ut := u } = ascentStep s t) := by
  refine ⟨?_, ?_, ?_⟩
  · rintro s t (hap | halt)
    · simp [ascentStep, hap]
    · cases hap : t.apoapsis <;> simp [ascentStep, hap, halt]
  · intro s t ap alt hap halt hf
    simp [ascentStep, hap, halt, hf, stagingUpdate]
  · intro s t u
    cases hap : t.apoapsis <;> cases halt : t.altitude <;>
      simp [ascentStep, hap, halt]

/-- C5 counterexample: a tick whose fuel reading resolves to `0` while the
altitude reading fails, against a state that has already seen positive fuel
(`srb_fuel_seen_valid = true`, not yet separated).  The claim says the
staging check — dependent only on the fuel reading — still executes and
would fire; the code skips the whole tick body: no staging command is
issued and `srb_seperated` stays `false`. -/
theorem tick_gating_cex :
    (⟨none, some 0, none, some 0⟩ : Tick).srb_fuel = some 0 ∧
    ((0:ℚ) ≤ 0) ∧
    (⟨10, false, true⟩ : AscentState).srb_fuel_seen_valid = true ∧
    (⟨10, false, true⟩ : AscentState).srb_seperated = false ∧
    (ascentStep ⟨10, false, true⟩ ⟨none, some 0, none, some 0⟩).cmds = [] ∧
    (ascentStep ⟨10, false, true⟩
      ⟨none, some 0, none, some 0⟩).state.srb_seperated = false := by
  refine ⟨rfl, le_refl 0, rfl, rfl, ?_, ?_⟩ <;> simp [ascentStep]

/-- Witness for C5 (amended): a failed-altitude tick is fully skipped; a
tick with both readings resolved but a failed fuel reading runs the pitch
update and exit check with the staging flags untouched; and blanking the
`ut` reading changes nothing. -/
theorem tick_gating_spec_witness :
    ascentStep initialAscentState ⟨none, some 70000, none, some 1⟩
      = ⟨initialAscentState, [], false⟩ ∧
    ((ascentStep initialAscentState ⟨none, some 0, some 50000, none⟩).cmds
        = (pitchUpdate initialAscentState.turn_angle 50000).2 ∧
      (ascentStep initialAscentState
          ⟨none, some 0, some 50000, none⟩).state.turn_angle
        = (pitchUpdate initialAscentState.turn_angle 50000).1 ∧
      (ascentStep initialAscentState
          ⟨none, some 0, some 50000, none⟩).state.srb_seperated
        = initialAscentState.srb_seperated ∧
      (ascentStep initialAscentState
          ⟨none, some 0, some 50000, none⟩).state.srb_fuel_seen_valid
        = initialAscentState.srb_fuel_seen_valid ∧
      ((ascentStep initialAscentState
          ⟨none, some 0, some 50000, none⟩).brk = true ↔
        TARGET_ALTITUDE * 0.9 ≤ (0:ℚ))) ∧
    ascentStep initialAscentState
        ({ (⟨none, some 0, some 50000, none⟩ : Tick) with ut := some 3 })
      = ascentStep initialAscentState ⟨none, some 0, some 50000, none⟩ :=
  ⟨tick_gating_spec.1 initialAscentState _ (Or.inr rfl),
   tick_gating_spec.2.1 initialAscentState _ 0 50000 rfl rfl rfl,
   tick_gating_spec.2.2 initialAscentState _ (some 3)⟩

/-! ## C10: attitude commands during powered ascent -/

/-- The gravity turn's computed angle always lies strictly between `0` and
`90` (the altitude interval is open, so the fraction is in `(0, 1)`). -/
theorem gravityTurnAngle?_bounds {a n : ℚ} (h : gravityTurnAngle? a = some n) :
    0 < n ∧ n < 90 := by
  unfold gravityTurnAngle? at h
  by_cases hc : TURN_START_ALT < a ∧ a < TURN_END_ALT
  · rw [if_pos hc] at h
    injection h with hn
    obtain ⟨h1, h2⟩ := hc
    simp only [TURN_START_ALT, TURN_END_ALT] at h1 h2 hn
    have h1' : (0:ℚ) < a - 250 := by linarith
    have hpos : (0:ℚ) < (a - 250) / (45000 - 250) := by positivity
    have hlt : (a - 250) / (45000 - 250) < 1 := by
      rw [div_lt_one (by norm_num)]
      linarith
    constructor
    · rw [← hn]
      exact mul_pos hpos (by norm_num)
    · rw [← hn]
      calc (a - 250) / (45000 - 250) * 90 < 1 * 90 :=
            mul_lt_mul_of_pos_right hlt (by norm_num)
        _ = 90 := one_mul 90
  · rw [if_neg hc] at h
    exact Option.noConfusion h

/-- Every pitch/heading command the pitch program emits has heading `90`
and pitch `90` minus the newly stored turn angle. -/
theorem pitch_cmd_mem {ta a p h : ℚ}
    (hm : Command.pitchHeading p h ∈ (pitchUpdate ta a).2) :
    h = 90 ∧ ∃ n, gravityTurnAngle? a = some n ∧ p = 90 - n ∧
      (pitchUpdate ta a).1 = n := by
  cases hg : gravityTurnAngle? a with
  | none => simp [pitchUpdate, hg] at hm
  | some n =>
      by_cases hd : (0.5:ℚ) < |n - ta|
      · have he : pitchUpdate ta a = (n, [Command.pitchHeading (90 - n) 90]) := by
          simp [pitchUpdate, hg, hd]
        rw [he] at hm
        simp at hm
        exact ⟨hm.2, n, rfl, hm.1, by rw [he]⟩
      · have he : pitchUpdate ta a = (ta, []) := by
          simp [pitchUpdate, hg, hd]
        rw [he] at hm
        simp at hm

/-- The staging check emits either nothing or exactly one
`activate_next_stage` command. -/
theorem stagingUpdate_cmds (sep seen : Bool) (f : Option ℚ) :
    (stagingUpdate sep seen f).2.2 = [] ∨
    (stagingUpdate sep seen f).2.2 = [Command.activateNextStage] := by
  unfold stagingUpdate
  cases f with
  | none => exact Or.inl rfl
  | some fuel =>
      dsimp only
      split
      · exact Or.inl rfl
      · split
        · split
          · exact Or.inr rfl
          · exact Or.inl rfl
        · split
          · exact Or.inr rfl
          · exact Or.inl rfl

/-- C10: every attitude command of the powered ascent — the launch command
and every command the ascent loop emits — is
`target_pitch_and_heading(90 - turn_angle, 90)`: the heading is always
exactly `90`, and the pitch is `90` minus the turn angle stored by that
tick, hence within `[0, 90]`. -/
theorem attitude_commands_spec :
    (∀ p h : ℚ, Command.pitchHeading p h ∈ launchCommands →
      p = 90 ∧ h = 90) ∧
    (∀ (s : AscentState) (t : Tick) (p h : ℚ),
      Command.pitchHeading p h ∈ (ascentStep s t).cmds →
      h = 90 ∧ p = 90 - (ascentStep s t).state.turn_angle ∧
      0 ≤ p ∧ p ≤ 90) ∧
    (∀ (s : AscentState) (ts : List Tick) (p h : ℚ),
      Command.pitchHeading p h ∈ (ascentLoop s ts).tickCmds.flatten →
      h = 90 ∧ 0 ≤ p ∧ p ≤ 90) := by
  have hstep : ∀ (s : AscentState) (t : Tick) (p h : ℚ),
      Command.pitchHeading p h ∈ (ascentStep s t).cmds →
      h = 90 ∧ p = 90 - (ascentStep s t).state.turn_angle ∧
      0 ≤ p ∧ p ≤ 90 := by
    intro s t p h hm
    cases hap : t.apoapsis with
    | none => simp [ascentStep, hap] at hm
    | some ap =>
        cases halt : t.altitude with
        | none => simp [ascentStep, hap, halt] at hm
        | some alt =>
            have hcm : (ascentStep s t).cmds
                = (pitchUpdate s.turn_angle alt).2 ++
                  (stagingUpdate s.srb_seperated s.srb_fuel_seen_valid
                    t.srb_fuel).2.2 := by
              simp [ascentStep, hap, halt]
            have hst : (ascentStep s t).state.turn_angle
                = (pitchUpdate s.turn_angle alt).1 := by
              simp [ascentStep, hap, halt]
            rw [hcm] at hm
            rcases List.mem_append.mp hm with hp | hs
            · obtain ⟨hh, n, hg, hpn, h1⟩ := pitch_cmd_mem hp
              obtain ⟨hn0, hn90⟩ := gravityTurnAngle?_bounds hg
              refine ⟨hh, ?_, by linarith, by linarith⟩
              rw [hst, h1, hpn]
            · rcases stagingUpdate_cmds s.srb_seperated
                  s.srb_fuel_seen_valid t.srb_fuel with he | he <;>
                rw [he] at hs <;> simp at hs
  refine ⟨?_, hstep, ?_⟩
  · intro p h hm
    simp [launchCommands] at hm
    exact hm
  · intro s ts
    induction ts generalizing s with
    | nil => intro p h hm; simp [ascentLoop] at hm
    | cons t ts ih =>
        intro p h hm
        by_cases hb : (ascentStep s t).brk = true
        · have hl : (ascentLoop s (t :: ts)).tickCmds
              = [(ascentStep s t).cmds] := by
            simp [ascentLoop, hb]
          rw [hl] at hm
          simp only [List.flatten_cons, List.flatten_nil,
            List.append_nil] at hm
          obtain ⟨hh, _, h0, h90⟩ := hstep s t p h hm
          exact ⟨hh, h0, h90⟩
        · have hl : (ascentLoop s (t :: ts)).tickCmds
              = (ascentStep s t).cmds ::
                (ascentLoop (ascentStep s t).state ts).tickCmds := by
            simp [ascentLoop, hb]
          rw [hl, List.flatten_cons] at hm
          rcases List.mem_append.mp hm with h1 | h2
          · obtain ⟨hh, _, h0, h90⟩ := hstep s t p h h1
            exact ⟨hh, h0, h90⟩
          · exact ih (ascentStep s t).state p h h2

/-- Witness for C10: the launch command `(90, 90)`, and the command
`pitch 45, heading 90` emitted at the gravity turn's midpoint altitude
`22625` from the initial state, both as a single step and inside a run. -/
theorem attitude_commands_spec_witness :
    ((90:ℚ) = 90 ∧ (90:ℚ) = 90) ∧
    ((90:ℚ) = 90 ∧
      (45:ℚ) = 90 - (ascentStep initialAscentState
        ⟨none, some 0, some 22625, none⟩).state.turn_angle ∧
      (0:ℚ) ≤ 45 ∧ (45:ℚ) ≤ 90) ∧
    ((90:ℚ) = 90 ∧ (0:ℚ) ≤ 45 ∧ (45:ℚ) ≤ 90) := by
  have hm1 : Command.pitchHeading 90 90 ∈ launchCommands := by
    simp [launchCommands]
  have hm2 : Command.pitchHeading 45 90 ∈
      (ascentStep initialAscentState ⟨none, some 0, some 22625, none⟩).cmds := by
    norm_num [ascentStep, pitchUpdate, gravityTurnAngle?, stagingUpdate,
      TURN_START_ALT, TURN_END_ALT, initialAscentState]
  have hm3 : Command.pitchHeading 45 90 ∈
      (ascentLoop initialAscentState
        [⟨none, some 0, some 22625, none⟩]).tickCmds.flatten := by
    norm_num [ascentLoop, ascentStep, pitchUpdate, gravityTurnAngle?,
      stagingUpdate, TARGET_ALTITUDE, TURN_START_ALT, TURN_END_ALT,
      initialAscentState]
  exact ⟨attitude_commands_spec.1 90 90 hm1,
    attitude_commands_spec.2.1 _ _ 45 90 hm2,
    attitude_commands_spec.2.2 _ _ 45 90 hm3⟩

/-! ## C4: SRB staging fires exactly once, after a positive fuel reading -/

/-- The pitch program never emits a staging command. -/
theorem stage_not_mem_pitch (ta a : ℚ) :
    Command.activateNextStage ∉ (pitchUpdate ta a).2 := by
  cases hg : gravityTurnAngle? a with
  | none => simp [pitchUpdate, hg]
  | some n =>
      by_cases hd : (0.5:ℚ) < |n - ta| <;> simp [pitchUpdate, hg, hd]

/-- A failed fuel reading leaves the staging state untouched. -/
theorem stagingUpdate_none (sep seen : Bool) :
    stagingUpdate sep seen none = (sep, seen, []) := rfl

/-- Once separated, the staging check does nothing. -/
theorem stagingUpdate_of_sep (seen : Bool) (f : Option ℚ) :
    stagingUpdate true seen f = (true, seen, []) := by
  cases f <;> simp [stagingUpdate]

/-- With the positive-fuel flag set, a resolved reading `<= 0` stages. -/
theorem stagingUpdate_fire (fuel : ℚ) (hle : fuel ≤ 0) :
    stagingUpdate false true (some fuel)
      = (true, true, [Command.activateNextStage]) := by
  simp [stagingUpdate, hle]

/-- A resolved positive reading only (re)sets the positive-fuel flag. -/
theorem stagingUpdate_pos (seen : Bool) (fuel : ℚ) (hpos : 0 < fuel) :
    stagingUpdate false seen (some fuel) = (false, true, []) := by
  have hnle : ¬ fuel ≤ 0 := by linarith
  cases seen <;> simp [stagingUpdate, hpos, hnle]

/-- A resolved reading `<= 0` before any positive reading does nothing:
the uninitialized-zero debounce. -/
theorem stagingUpdate_zero_unseen (fuel : ℚ) (hle : fuel ≤ 0) :
    stagingUpdate false false (some fuel) = (false, false, []) := by
  have hnpos : ¬ (0 < fuel) := by linarith
  simp [stagingUpdate, hle, hnpos]

/-- Once `srb_seperated` is `true`, every further tick keeps it `true` and
issues no staging command: the check is skipped. -/
theorem ascentStep_of_sep (s : AscentState) (t : Tick)
    (h : s.srb_seperated = true) :
    (ascentStep s t).state.srb_seperated = true ∧
    Command.activateNextStage ∉ (ascentStep s t).cmds := by
  cases hap : t.apoapsis with
  | none => simp [ascentStep, hap, h]
  | some ap =>
      cases halt : t.altitude with
      | none => simp [ascentStep, hap, halt, h]
      | some alt =>
          constructor
          · simp [ascentStep, hap, halt, h, stagingUpdate_of_sep]
          · simp [ascentStep, hap, halt, h, stagingUpdate_of_sep,
              stage_not_mem_pitch]

/-- A staging command is emitted only from an unseparated state with the
positive-fuel flag set and a resolved fuel reading `<= 0`. -/
theorem ascentStep_stage_mem {s : AscentState} {t : Tick}
    (hm : Command.activateNextStage ∈ (ascentStep s t).cmds) :
    fuelNonPos t ∧ s.srb_fuel_seen_valid = true ∧
    s.srb_seperated = false := by
  cases hap : t.apoapsis with
  | none => simp [ascentStep, hap] at hm
  | some ap =>
      cases halt : t.altitude with
      | none => simp [ascentStep, hap, halt] at hm
      | some alt =>
          have hcm : (ascentStep s t).cmds
              = (pitchUpdate s.turn_angle alt).2 ++
                (stagingUpdate s.srb_seperated s.srb_fuel_seen_valid
                  t.srb_fuel).2.2 := by
            simp [ascentStep, hap, halt]
          rw [hcm] at hm
          rcases List.mem_append.mp hm with hp | hs
          · exact absurd hp (stage_not_mem_pitch _ _)
          · cases hf : t.srb_fuel with
            | none =>
                rw [hf, stagingUpdate_none] at hs
                simp at hs
            | some fuel =>
                rw [hf] at hs
                cases hsep : s.srb_seperated with
                | true =>
                    rw [hsep, stagingUpdate_of_sep] at hs
                    simp at hs
                | false =>
                    cases hseen : s.srb_fuel_seen_valid with
                    | false =>
                        by_cases hle : fuel ≤ 0
                        · rw [hsep, hseen,
                            stagingUpdate_zero_unseen fuel hle] at hs
                          simp at hs
                        · rw [hsep,
                            stagingUpdate_pos _ fuel (by linarith)] at hs
                          simp at hs
                    | true =>
                        by_cases hle : fuel ≤ 0
                        · exact ⟨⟨fuel, hf, hle⟩, rfl, rfl⟩
                        · rw [hsep,
                            stagingUpdate_pos _ fuel (by linarith)] at hs
                          simp at hs

/-- The positive-fuel flag only becomes `true` when it already was, or the
tick carries a resolved positive fuel reading. -/
theorem ascentStep_seen_mono {s : AscentState} {t : Tick}
    (h : (ascentStep s t).state.srb_fuel_seen_valid = true) :
    s.srb_fuel_seen_valid = true ∨ fuelPos t := by
  cases hap : t.apoapsis with
  | none =>
      rw [show (ascentStep s t).state = s from by simp [ascentStep, hap]] at h
      exact Or.inl h
  | some ap =>
      cases halt : t.altitude with
      | none =>
          rw [show (ascentStep s t).state = s
              from by simp [ascentStep, hap, halt]] at h
          exact Or.inl h
      | some alt =>
          have hseen : (ascentStep s t).state.srb_fuel_seen_valid
              = (stagingUpdate s.srb_seperated s.srb_fuel_seen_valid
                  t.srb_fuel).2.1 := by
            simp [ascentStep, hap, halt]
          rw [hseen] at h
          cases hf : t.srb_fuel with
          | none =>
              rw [hf, stagingUpdate_none] at h
              exact Or.inl h
          | some fuel =>
              rw [hf] at h
              cases hsep : s.srb_seperated with
              | true =>
                  rw [hsep, stagingUpdate_of_sep] at h
                  exact Or.inl h
              | false =>
                  by_cases hpos : 0 < fuel
                  · exact Or.inr ⟨fuel, hf, hpos⟩
                  · cases hseen' : s.srb_fuel_seen_valid with
                    | true => exact Or.inl rfl
                    | false =>
                        rw [hsep, hseen',
                          stagingUpdate_zero_unseen fuel (by linarith)] at h
                        simp at h

/-- Staging setting `srb_seperated`: a tick that emits the staging command
ends with `srb_seperated = true`. -/
theorem ascentStep_stage_sets_sep {s : AscentState} {t : Tick}
    (hm : Command.activateNextStage ∈ (ascentStep s t).cmds) :
    (ascentStep s t).state.srb_seperated = true := by
  obtain ⟨⟨fuel, hf, hle⟩, hseen, hsep⟩ := ascentStep_stage_mem hm
  cases hap : t.apoapsis with
  | none => simp [ascentStep, hap] at hm
  | some ap =>
      cases halt : t.altitude with
      | none => simp [ascentStep, hap, halt] at hm
      | some alt =>
          have hst : (ascentStep s t).state.srb_seperated
              = (stagingUpdate s.srb_seperated s.srb_fuel_seen_valid
                  t.srb_fuel).1 := by
            simp [ascentStep, hap, halt]
          rw [hst, hf, hsep, hseen, stagingUpdate_fire fuel hle]

/-- A tick that emits no staging command leaves `srb_seperated = false`
when it was `false`. -/
theorem ascentStep_sep_of_not_stage {s : AscentState} {t : Tick}
    (hsep : s.srb_seperated = false)
    (hm : Command.activateNextStage ∉ (ascentStep s t).cmds) :
    (ascentStep s t).state.srb_seperated = false := by
  cases hap : t.apoapsis with
  | none => simp [ascentStep, hap, hsep]
  | some ap =>
      cases halt : t.altitude with
      | none => simp [ascentStep, hap, halt, hsep]
      | some alt =>
          have hst : (ascentStep s t).state.srb_seperated
              = (stagingUpdate s.srb_seperated s.srb_fuel_seen_valid
                  t.srb_fuel).1 := by
            simp [ascentStep, hap, halt]
          have hcm : (ascentStep s t).cmds
              = (pitchUpdate s.turn_angle alt).2 ++
                (stagingUpdate s.srb_seperated s.srb_fuel_seen_valid
                  t.srb_fuel).2.2 := by
            simp [ascentStep, hap, halt]
          rw [hst, hsep]
          cases hf : t.srb_fuel with
          | none => rw [stagingUpdate_none]
          | some fuel =>
              by_cases hpos : 0 < fuel
              · rw [stagingUpdate_pos _ fuel hpos]
              · cases hseen : s.srb_fuel_seen_valid with
                | false => rw [stagingUpdate_zero_unseen fuel (by linarith)]
                | true =>
                    exfalso
                    apply hm
                    rw [hcm]
                    refine List.mem_append.mpr (Or.inr ?_)
                    rw [hf, hsep, hseen, stagingUpdate_fire fuel (by linarith)]
                    simp

/-- The staging command's multiplicity in one tick's commands is at most
one, and it is one exactly when the command was emitted. -/
theorem ascentStep_stage_count (s : AscentState) (t : Tick) :
    (ascentStep s t).cmds.count Command.activateNextStage ≤ 1 ∧
    ((ascentStep s t).cmds.count Command.activateNextStage = 1 ↔
      Command.activateNextStage ∈ (ascentStep s t).cmds) := by
  cases hap : t.apoapsis with
  | none => simp [ascentStep, hap]
  | some ap =>
      cases halt : t.altitude with
      | none => simp [ascentStep, hap, halt]
      | some alt =>
          have hcm : (ascentStep s t).cmds
              = (pitchUpdate s.turn_angle alt).2 ++
                (stagingUpdate s.srb_seperated s.srb_fuel_seen_valid
                  t.srb_fuel).2.2 := by
            simp [ascentStep, hap, halt]
          have hp0 : (pitchUpdate s.turn_angle alt).2.count
              Command.activateNextStage = 0 :=
            List.count_eq_zero.mpr (stage_not_mem_pitch _ _)
          rw [hcm]
          rcases stagingUpdate_cmds s.srb_seperated s.srb_fuel_seen_valid
              t.srb_fuel with he | he <;>
            rw [he] <;>
            simp [List.count_append, hp0, List.mem_append,
              stage_not_mem_pitch s.turn_angle alt]

/-- Once separated, the rest of the run emits no staging command and the
flag stays set. -/
theorem ascentLoop_of_sep (ts : List Tick) : ∀ s : AscentState,
    s.srb_seperated = true →
    (ascentLoop s ts).state.srb_seperated = true ∧
    (ascentLoop s ts).tickCmds.flatten.count Command.activateNextStage
      = 0 := by
  induction ts with
  | nil => intro s h; exact ⟨h, rfl⟩
  | cons t ts ih =>
      intro s h
      obtain ⟨h1, h2⟩ := ascentStep_of_sep s t h
      by_cases hb : (ascentStep s t).brk = true
      · have hl : ascentLoop s (t :: ts)
            = ⟨(ascentStep s t).state, [(ascentStep s t).cmds], some 0⟩ := by
          simp [ascentLoop, hb]
        rw [hl]
        exact ⟨h1, by simp [List.count_eq_zero, h2]⟩
      · have hl : ascentLoop s (t :: ts)
            = ⟨(ascentLoop (ascentStep s t).state ts).state,
               (ascentStep s t).cmds ::
                 (ascentLoop (ascentStep s t).state ts).tickCmds,
               ((ascentLoop (ascentStep s t).state ts).exitIdx).map
                 (· + 1)⟩ := by
          simp [ascentLoop, hb]
        obtain ⟨ih1, ih2⟩ := ih (ascentStep s t).state h1
        rw [hl]
        refine ⟨ih1, ?_⟩
        simp [List.flatten_cons, List.count_append, ih2,
          List.count_eq_zero.mpr h2]

/-- Over any run, the staging command is issued at most once. -/
theorem ascentLoop_count_le_one (ts : List Tick) : ∀ s : AscentState,
    (ascentLoop s ts).tickCmds.flatten.count Command.activateNextStage
      ≤ 1 := by
  induction ts with
  | nil => intro s; simp [ascentLoop]
  | cons t ts ih =>
      intro s
      by_cases hb : (ascentStep s t).brk = true
      · have hl : (ascentLoop s (t :: ts)).tickCmds
            = [(ascentStep s t).cmds] := by
          simp [ascentLoop, hb]
        rw [hl]
        simpa using (ascentStep_stage_count s t).1
      · have hl : (ascentLoop s (t :: ts)).tickCmds
            = (ascentStep s t).cmds ::
              (ascentLoop (ascentStep s t).state ts).tickCmds := by
          simp [ascentLoop, hb]
        rw [hl, List.flatten_cons, List.count_append]
        by_cases hm : Command.activateNextStage ∈ (ascentStep s t).cmds
        · have hsep := ascentStep_stage_sets_sep hm
          have h0 := (ascentLoop_of_sep ts (ascentStep s t).state hsep).2
          have h1 := (ascentStep_stage_count s t).1
          omega
        · have h0 := List.count_eq_zero.mpr hm
          have h1 := ih (ascentStep s t).state
          omega

/-- From an unseparated state, the run ends separated exactly when the
staging command was issued (once). -/
theorem ascentLoop_sep_iff (ts : List Tick) : ∀ s : AscentState,
    s.srb_seperated = false →
    ((ascentLoop s ts).state.srb_seperated = true ↔
      (ascentLoop s ts).tickCmds.flatten.count Command.activateNextStage
        = 1) := by
  induction ts with
  | nil => intro s h; simp [ascentLoop, h]
  | cons t ts ih =>
      intro s h
      by_cases hb : (ascentStep s t).brk = true
      · have hl : ascentLoop s (t :: ts)
            = ⟨(ascentStep s t).state, [(ascentStep s t).cmds], some 0⟩ := by
          simp [ascentLoop, hb]
        rw [hl]
        simp only [List.flatten_cons, List.flatten_nil, List.append_nil]
        constructor
        · intro hsep'
          by_cases hm : Command.activateNextStage ∈ (ascentStep s t).cmds
          · exact (ascentStep_stage_count s t).2.mpr hm
          · rw [ascentStep_sep_of_not_stage h hm] at hsep'
            exact absurd hsep' (by simp)
        · intro hc
          exact ascentStep_stage_sets_sep
            ((ascentStep_stage_count s t).2.mp hc)
      · have hl : ascentLoop s (t :: ts)
            = ⟨(ascentLoop (ascentStep s t).state ts).state,
               (ascentStep s t).cmds ::
                 (ascentLoop (ascentStep s t).state ts).tickCmds,
               ((ascentLoop (ascentStep s t).state ts).exitIdx).map
                 (· + 1)⟩ := by
          simp [ascentLoop, hb]
        rw [hl]
        simp only [List.flatten_cons, List.count_append]
        by_cases hm : Command.activateNextStage ∈ (ascentStep s t).cmds
        · have hsep := ascentStep_stage_sets_sep hm
          obtain ⟨h1, h2⟩ := ascentLoop_of_sep ts (ascentStep s t).state hsep
          have hc1 := (ascentStep_stage_count s t).2.mpr hm
          simp [h1, h2, hc1]
        · have h0 := List.count_eq_zero.mpr hm
          have hsep := ascentStep_sep_of_not_stage h hm
          have := ih (ascentStep s t).state hsep
          simpa [h0] using this

/-- Indexed necessity: a staging command at tick `i` implies tick `i` had
a resolved fuel reading `<= 0`, and — unless the flag was already set when
the run started — some strictly earlier tick had a resolved fuel reading
`> 0`. -/
theorem ascentLoop_stage_necessity (ts : List Tick) :
    ∀ (s : AscentState) (i : ℕ),
    Command.activateNextStage ∈ (ascentLoop s ts).tickCmds.getD i [] →
    (∃ ti, ts[i]? = some ti ∧ fuelNonPos ti) ∧
    (s.srb_fuel_seen_valid = true ∨
      ∃ j, j < i ∧ ∃ tj, ts[j]? = some tj ∧ fuelPos tj) := by
  induction ts with
  | nil => intro s i hm; simp [ascentLoop, List.getD] at hm
  | cons t ts ih =>
      intro s i hm
      by_cases hb : (ascentStep s t).brk = true
      · have hl : (ascentLoop s (t :: ts)).tickCmds
            = [(ascentStep s t).cmds] := by
          simp [ascentLoop, hb]
        rw [hl] at hm
        cases i with
        | zero =>
            simp only [List.getD_cons_zero] at hm
            obtain ⟨hnp, hseen, _⟩ := ascentStep_stage_mem hm
            exact ⟨⟨t, by simp, hnp⟩, Or.inl hseen⟩
        | succ i' => simp [List.getD] at hm
      · have hl : (ascentLoop s (t :: ts)).tickCmds
            = (ascentStep s t).cmds ::
              (ascentLoop (ascentStep s t).state ts).tickCmds := by
          simp [ascentLoop, hb]
        rw [hl] at hm
        cases i with
        | zero =>
            simp only [List.getD_cons_zero] at hm
            obtain ⟨hnp, hseen, _⟩ := ascentStep_stage_mem hm
            exact ⟨⟨t, by simp, hnp⟩, Or.inl hseen⟩
        | succ i' =>
            simp only [List.getD_cons_succ] at hm
            obtain ⟨⟨ti, hti, hq⟩, hrest⟩ := ih (ascentStep s t).state i' hm
            refine ⟨⟨ti, by simpa using hti, hq⟩, ?_⟩
            rcases hrest with hseen | ⟨j, hj, tj, htj, hp⟩
            · rcases ascentStep_seen_mono hseen with hx | hx
              · exact Or.inl hx
              · exact Or.inr ⟨0, Nat.succ_pos i', t, by simp, hx⟩
            · exact Or.inr ⟨j + 1, by omega, tj, by simpa using htj, hp⟩

/-- C4: over every run of the ascent loop from the initial state, the
staging command is issued at most once and `srb_seperated` ends `true`
exactly when it was issued (so the false→true transition happens exactly
once, on the staging tick, and never reverts); a staging command at tick
`i` requires tick `i`'s resolved fuel reading to be `<= 0` and some
strictly earlier tick's resolved fuel reading to be `> 0` (initial zero
readings never trigger staging); and once separated every further tick
skips the check entirely. -/
theorem srb_staging_spec (ts : List Tick) :
    ((ascentLoop initialAscentState ts).tickCmds.flatten.count
        Command.activateNextStage ≤ 1) ∧
    ((ascentLoop initialAscentState ts).state.srb_seperated = true ↔
      (ascentLoop initialAscentState ts).tickCmds.flatten.count
        Command.activateNextStage = 1) ∧
    (∀ i : ℕ, Command.activateNextStage ∈
        (ascentLoop initialAscentState ts).tickCmds.getD i [] →
      (∃ ti, ts[i]? = some ti ∧ fuelNonPos ti) ∧
      ∃ j, j < i ∧ ∃ tj, ts[j]? = some tj ∧ fuelPos tj) ∧
    (∀ (s : AscentState) (t : Tick), s.srb_seperated = true →
      (ascentStep s t).state.srb_seperated = true ∧
      Command.activateNextStage ∉ (ascentStep s t).cmds) := by
  refine ⟨ascentLoop_count_le_one ts initialAscentState,
    ascentLoop_sep_iff ts initialAscentState rfl, ?_, ascentStep_of_sep⟩
  intro i hm
  obtain ⟨hfirst, hrest⟩ :=
    ascentLoop_stage_necessity ts initialAscentState i hm
  refine ⟨hfirst, ?_⟩
  rcases hrest with hseen | hex
  · simp [initialAscentState] at hseen
  · exact hex

/-- Witness for C4: a run with fuel readings `5` then `0` stages exactly
on the second tick; and a step from an already-separated state is inert. -/
theorem srb_staging_spec_witness :
    ((ascentLoop initialAscentState
        [⟨none, some 0, some 50000, some 5⟩,
         ⟨none, some 0, some 50000, some 0⟩]).tickCmds.flatten.count
        Command.activateNextStage ≤ 1) ∧
    ((∃ ti, ([(⟨none, some 0, some 50000, some 5⟩ : Tick),
        ⟨none, some 0, some 50000, some 0⟩])[(1:ℕ)]? = some ti ∧
        fuelNonPos ti) ∧
      ∃ j, j < 1 ∧ ∃ tj, ([(⟨none, some 0, some 50000, some 5⟩ : Tick),
        ⟨none, some 0, some 50000, some 0⟩])[j]? = some tj ∧ fuelPos tj) ∧
    ((ascentStep ⟨0, true, true⟩
        ⟨none, none, none, some 0⟩).state.srb_seperated = true ∧
      Command.activateNextStage ∉
        (ascentStep ⟨0, true, true⟩ ⟨none, none, none, some 0⟩).cmds) := by
  have hm : Command.activateNextStage ∈
      (ascentLoop initialAscentState
        [⟨none, some 0, some 50000, some 5⟩,
         ⟨none, some 0, some 50000, some 0⟩]).tickCmds.getD 1 [] := by
    norm_num [ascentLoop, ascentStep, pitchUpdate, gravityTurnAngle?,
      stagingUpdate, TARGET_ALTITUDE, TURN_START_ALT, TURN_END_ALT,
      initialAscentState]
  have hts := srb_staging_spec
    [⟨none, some 0, some 50000, some 5⟩, ⟨none, some 0, some 50000, some 0⟩]
  exact ⟨hts.1, hts.2.2.1 1 hm,
    hts.2.2.2 ⟨0, true, true⟩ ⟨none, none, none, some 0⟩ rfl⟩

end Betterjeb
